import Mathlib

/-!
Verification of the PDB extraction pipeline (`pdb_extract.py`).

The program fetches delimited text records from a remote service, builds a
deduplicated table (pandas `DataFrame`), optionally filters it by a numeric
resolution threshold, aggregates multi-row groups into one row per PDB
identifier, reorders columns for export, and writes CSV artifacts with a
write-to-temporary-then-rename discipline.

The embedding below models a pandas `DataFrame` as a list of column labels
together with a list of rows, where each row is a positional list of cells.
A cell is either null (pandas `NaN` / `None` padding), a string, or a
number (the result of `pd.to_numeric`; modelled as a rational — the claims
proved here do not depend on binary floating-point rounding, only on order
comparisons of short decimal literals, which are exact).
-/

/-- Cell of a table: null (pandas `NaN`), a string, or a numeric value
(result of `pd.to_numeric`). -/
inductive Cell where
  | null : Cell
  | str : String → Cell
  | num : Rat → Cell
deriving DecidableEq, Repr

/-- Model of a pandas `DataFrame`: ordered column labels and positional
rows.  Column labels are cells because `df.columns = df.iloc[0]` assigns a
data row as the label list. -/
structure DFrame where
  cols : List Cell
  rows : List (List Cell)
deriving DecidableEq, Repr

instance {ε α : Type} [DecidableEq ε] [DecidableEq α] : DecidableEq (Except ε α) := fun x y =>
  match x, y with
  | .error a, .error b =>
      if h : a = b then isTrue (by rw [h]) else isFalse (fun hc => by injection hc; exact h (by assumption))
  | .ok a, .ok b =>
      if h : a = b then isTrue (by rw [h]) else isFalse (fun hc => by injection hc; exact h (by assumption))
  | .error _, .ok _ => isFalse (fun hc => by injection hc)
  | .ok _, .error _ => isFalse (fun hc => by injection hc)

/-- Index of the first occurrence of an element in a list (pandas column
label lookup), or `none` when absent. -/
def idxCol {α : Type} [DecidableEq α] : List α → α → Option Nat
  | [], _ => none
  | a :: l, x => if a = x then some 0 else (idxCol l x).map (· + 1)

/-- Cell of a positional row at index `i`; out-of-range reads give `null`
(never reached on well-formed tables). -/
def getCellD (r : List Cell) (i : Nat) : Cell :=
  r.getD i Cell.null

/-- Traversal underlying `unique`, carrying the set of elements already
emitted. -/
def uniqueAux {α : Type} [DecidableEq α] : List α → List α → List α
  | [], _ => []
  | a :: t, seen =>
    if a ∈ seen then uniqueAux t seen
    else a :: uniqueAux t (a :: seen)

/-- Order-preserving deduplication keeping the first occurrence of each
element: pandas `drop_duplicates()` / `Series.unique()`. -/
def unique {α : Type} [DecidableEq α] (l : List α) : List α :=
  uniqueAux l []

/-- REST field key for the PDB identifier column (`PDB_ID_KEY`). -/
def PDB_ID_KEY : String := "structureId"

/-- REST field key for the ligand name column (`LIG_NAME_KEY`). -/
def LIG_NAME_KEY : String := "ligandName"

/-- REST field key for the resolution column (`RES_KEY`). -/
def RES_KEY : String := "resolution"

/-- Field Map: ordered mapping from REST API field keys to output CSV
column headers (`FIELDS_DICT` in the source). -/
def FIELDS_DICT : List (String × String) :=
  [(PDB_ID_KEY, "PDB ID"), ("structureTitle", "Structure Title"), (RES_KEY, "Resolution"),
   (LIG_NAME_KEY, "Ligand Name(s)"), ("classification", "Classification"),
   ("macromoleculeType", "Macromol. Type"), ("emdbId", "EMDB ID"), ("pubmedId", "Pubmed ID"),
   ("releaseDate", "Rel. Date"), ("experimentalTechnique", "Exp. Technique"),
   ("uniprotAcc", "Uniprot ID"), ("source", "Source"), ("ligandSmiles", "Ligand SMILES")]

/-- Display name of a field key under the Field Map; keys not in the map
are unchanged (semantics of `df.rename(columns=FIELDS_DICT)`). -/
def renameField (s : String) : String :=
  (FIELDS_DICT.lookup s).getD s

/-- Rename applied to one column label: string labels go through the Field
Map, non-string labels are unchanged. -/
def renameCell : Cell → Cell
  | Cell.str s => Cell.str (renameField s)
  | c => c

/-- Display name of the PDB identifier column, `FIELDS_DICT[PDB_ID_KEY]`. -/
def pdbDisplayCol : String := renameField PDB_ID_KEY

/-- Display name of the ligand name column, `FIELDS_DICT[LIG_NAME_KEY]`. -/
def ligDisplayCol : String := renameField LIG_NAME_KEY

/-- Display name of the resolution column, `FIELDS_DICT[RES_KEY]`. -/
def resDisplayCol : String := renameField RES_KEY

/-- Number of columns pandas gives `pd.DataFrame(data_rows)`: the maximum
row length (shorter rows are padded with null cells). -/
def nColsOf (d : List (List String)) : Nat :=
  d.foldr (fun r m => max r.length m) 0

/-- Pad one parsed CSV row to width `n`: present fields become string
cells, missing trailing fields become null cells. -/
def padRow (n : Nat) (r : List String) : List Cell :=
  (List.range n).map (fun i => match r.get? i with
    | some s => Cell.str s
    | none => Cell.null)

/-- Model of `pd.DataFrame(data_rows)`: rectangular table with default
integer column labels. -/
def mkDataFrame (d : List (List String)) : DFrame :=
  { cols := (List.range (nColsOf d)).map (fun (i : Nat) => Cell.num (i : Rat)),
    rows := d.map (padRow (nColsOf d)) }

/-- Table Builder (`get_dataframe_from_pdbs`), acting on the parsed CSV
rows of the concatenated fetch responses: build the DataFrame, raise when
it is empty, deduplicate rows, promote row 0 to the column labels, slice
off the first and last rows, and rename the labels via the Field Map. -/
def get_dataframe_from_pdbs (data_rows : List (List String)) : Except String DFrame :=
  let df := mkDataFrame data_rows
  if df.rows.isEmpty || df.cols.isEmpty then
    Except.error "The DataFrame object is empty."
  else
    let dedup := unique df.rows
    let header := dedup.headD []
    let body := (dedup.drop 1).dropLast
    Except.ok { cols := header.map renameCell, rows := body }

/-- Traversal underlying `specDedup`, carrying the list of earlier rows
already seen. -/
def specDedupGo {α : Type} [DecidableEq α] : List α → List α → List α
  | [], _ => []
  | a :: t, earlier =>
    if a ∈ earlier then specDedupGo t (earlier ++ [a])
    else a :: specDedupGo t (earlier ++ [a])

/-- Reference deduplication as the specification words it: remove each row
that is an exact duplicate of an earlier row (order-preserving, first
occurrence kept). -/
def specDedup {α : Type} [DecidableEq α] (l : List α) : List α :=
  specDedupGo l []

/-- Reference Table Builder, following the specification text: pad the
parsed rows into a table, remove rows duplicating an earlier row, take
row 0 as the header, discard row 0 and the last row, and rename headers
through the Field Map. -/
def spec_table_builder (data_rows : List (List String)) : DFrame :=
  let rows := specDedup (data_rows.map (padRow (nColsOf data_rows)))
  { cols := (rows.headD []).map renameCell,
    rows := rows.tail.dropLast }

/-- Numeric value of a list of decimal digit characters. -/
def digitsVal (cs : List Char) : Nat :=
  cs.foldl (fun acc c => acc * 10 + (c.toNat - 48)) 0

/-- Parse of a decimal numeric literal (optional sign, integer part,
optional fractional part), modelling the string acceptance of
`pd.to_numeric`; returns `none` on anything non-numeric.  The value
`intpart.fracpart` is the rational
`sign * (intpart * 10^k + fracpart) / 10^k` with `k` fractional digits. -/
def parseRat (s : String) : Option Rat :=
  let cs := s.data
  let sgn : Int := match cs with
    | '-' :: _ => -1
    | _ => 1
  let cs2 : List Char := match cs with
    | '-' :: rest => rest
    | '+' :: rest => rest
    | _ => cs
  let intPart := cs2.takeWhile Char.isDigit
  let rest := cs2.dropWhile Char.isDigit
  match rest with
  | [] => if intPart.isEmpty then none else some (mkRat (sgn * (digitsVal intPart : Int)) 1)
  | '.' :: frac =>
    if frac.all Char.isDigit && !(intPart.isEmpty && frac.isEmpty) then
      some (mkRat (sgn * ((digitsVal intPart * 10 ^ frac.length + digitsVal frac : Nat) : Int))
        (10 ^ frac.length))
    else none
  | _ => none

/-- Action of `pd.to_numeric` on one cell: `NaN` stays `NaN`, numbers stay
themselves, strings must parse as numbers; `none` models the raised
coercion error (`NonNumericValue` in the specification). -/
def toNumericCell : Cell → Option Cell
  | Cell.null => some Cell.null
  | Cell.num q => some (Cell.num q)
  | Cell.str s => (parseRat s).map Cell.num

/-- Resolution Filter (`filter_by_res`): coerce the resolution column with
`pd.to_numeric` (fatal error when a cell does not parse), then keep the
rows whose value is at most `res_val`.  A `NaN` resolution compares false
and is dropped, as in pandas. -/
def filter_by_res (df : DFrame) (res_val : Rat) (res_col_header : String) : Except String DFrame :=
  match idxCol df.cols (Cell.str res_col_header) with
  | none => Except.error "KeyError: resolution column missing"
  | some i =>
    match df.rows.mapM (fun r => (toNumericCell (getCellD r i)).map (fun c => r.set i c)) with
    | none => Except.error "ValueError: Unable to parse string"
    | some rs =>
      Except.ok { cols := df.cols,
                  rows := rs.filter (fun r => match getCellD r i with
                    | Cell.num q => decide (q ≤ res_val)
                    | _ => false) }

/-- Rendering of a numeric cell as text.  Python renders floats in decimal;
the exact format is irrelevant to every claim proved below (merged columns
hold string cells), so a simple rational rendering is used. -/
def numToString (q : Rat) : String :=
  toString q

/-- Action of `Series.astype(str)` on one cell: `NaN` becomes the literal
text "nan", strings stay themselves, numbers are rendered as text. -/
def astypeStr : Cell → String
  | Cell.null => "nan"
  | Cell.str s => s
  | Cell.num q => numToString q

/-- Join separator for one mergeable column: a single space, except the
ligand name column, which uses " | ". -/
def joinCharFor (col_nm : String) : String :=
  if col_nm = ligDisplayCol then " | " else " "

/-- Merged value of one mergeable column over one identifier group, as the
source computes it: stringify the cells, take the distinct values in
first-seen order (`Series.unique`), drop blank entries, and join. -/
def mergedValue (col_nm : String) (vals : List Cell) : String :=
  let unique_entries := unique (vals.map astypeStr)
  String.intercalate (joinCharFor col_nm) (unique_entries.filter (fun f => decide (f ≠ "")))

/-- Merged value of one mergeable column as the specification words it:
the distinct values excluding blank/empty strings, preserving first-seen
order, joined with the column separator. -/
def specMergedValue (col_nm : String) (vals : List Cell) : String :=
  String.intercalate (joinCharFor col_nm)
    (unique ((vals.map astypeStr).filter (fun f => decide (f ≠ ""))))

/-- Per-group merge loop of `concat_column_data`: for each mergeable
column in turn, overwrite the whole column of the group with the joined
merged value.  A column name absent from the labels would raise in pandas;
it is left untouched here and excluded by hypothesis in every theorem. -/
def mergeGroup (cols : List Cell) (col_names : List String) (g : List (List Cell)) : List (List Cell) :=
  col_names.foldl (fun g col_nm =>
    match idxCol cols (Cell.str col_nm) with
    | none => g
    | some i =>
      let joined := mergedValue col_nm (g.map (fun r => getCellD r i))
      g.map (fun r => r.set i (Cell.str joined))) g

/-- Total comparison used to model the sorted iteration order of pandas
`groupby` keys.  Only membership and multiplicity of the sorted key list
matter to the claims, never the order itself. -/
def cellLe : Cell → Cell → Bool
  | Cell.null, _ => true
  | _, Cell.null => false
  | Cell.num a, Cell.num b => decide (a ≤ b)
  | Cell.num _, Cell.str _ => true
  | Cell.str _, Cell.num _ => false
  | Cell.str a, Cell.str b => !(decide (b.data < a.data))

/-- Ordered insertion into a sorted list. -/
def insertSorted {α : Type} (le : α → α → Bool) (x : α) : List α → List α
  | [] => [x]
  | y :: t => if le x y then x :: y :: t else y :: insertSorted le x t

/-- Insertion sort, modelling the sorted iteration order of pandas
`groupby`. -/
def sortBy {α : Type} (le : α → α → Bool) (l : List α) : List α :=
  l.foldr (insertSorted le) []

/-- Group keys of `df.groupby` on the column at index `ipdb`: the distinct
non-null cell values of that column, iterated in sorted order. -/
def group_keys (df : DFrame) (ipdb : Nat) : List Cell :=
  sortBy cellLe (unique (df.rows.filterMap (fun r => match getCellD r ipdb with
    | Cell.null => none
    | c => some c)))

/-- Rows of the group with key `k` under `df.groupby` on column `ipdb`,
in original row order. -/
def group_rows (df : DFrame) (ipdb : Nat) (k : Cell) : List (List Cell) :=
  df.rows.filter (fun r => decide (getCellD r ipdb = k))

/-- Aggregator core (`concat_column_data`): group by the PDB ID column,
merge every mergeable column of every group, and concatenate.  The source
appends the (mutably shared) group once per mergeable column, so each
fully-merged group appears `col_names.length` times in the concatenation.
`pd.concat` of an empty list raises, as does `groupby` on a missing
column and the first read of a missing mergeable column. -/
def concat_column_data (col_names : List String) (df : DFrame) : Except String DFrame :=
  match idxCol df.cols (Cell.str pdbDisplayCol) with
  | none => Except.error "KeyError: PDB ID"
  | some ipdb =>
    let keys := group_keys df ipdb
    if keys.isEmpty || col_names.isEmpty then
      Except.error "ValueError: No objects to concatenate"
    else if !(col_names.all (fun c => (idxCol df.cols (Cell.str c)).isSome)) then
      Except.error "KeyError: mergeable column missing"
    else
      Except.ok { cols := df.cols,
                  rows := (keys.map (fun k =>
                    (List.replicate col_names.length
                      (mergeGroup df.cols col_names (group_rows df ipdb k))).flatten)).flatten }

/-- Name of the per-chain discriminator column dropped by the condenser. -/
def chainIdCol : String := "chainId"

/-- Projection of one positional row after dropping every column labelled
`chainId` (semantics of `df.drop('chainId', axis=1)` on one row). -/
def dropRowCells (cols : List Cell) (r : List Cell) : List Cell :=
  ((cols.zip r).filter (fun p => decide (p.1 ≠ Cell.str chainIdCol))).map Prod.snd

/-- Condenser (`get_condensed_df`): merge the mergeable columns, drop the
`chainId` column (pandas raises when it is absent), and deduplicate the
resulting rows. -/
def get_condensed_df (col_names : List String) (df : DFrame) : Except String DFrame :=
  match concat_column_data col_names df with
  | Except.error e => Except.error e
  | Except.ok cdf =>
    if Cell.str chainIdCol ∈ cdf.cols then
      Except.ok { cols := cdf.cols.filter (fun c => decide (c ≠ Cell.str chainIdCol)),
                  rows := unique (cdf.rows.map (dropRowCells cdf.cols)) }
    else Except.error "KeyError: chainId not found in axis"

/-- Value of the column labelled `lab` in a positional row, under the
label list `cols`; null when the label is absent. -/
def getByLabel (cols : List Cell) (r : List Cell) (lab : Cell) : Cell :=
  match idxCol cols lab with
  | some i => getCellD r i
  | none => Cell.null

/-- Mergeable columns of the condensed output, as listed in `main`. -/
def cols_to_concat : List String :=
  [renameField "pubmedId", ligDisplayCol, renameField "source",
   renameField "macromoleculeType", renameField "uniprotAcc"]

/-- Export column order of the condensed CSV: all columns except the last
two, with those two spliced in at position 5 (`export_cols[5:5] = qed_items`
in `main`). -/
def export_columns (cols : List Cell) : List Cell :=
  let base := cols.take (cols.length - 2)
  let qed_items := cols.drop (cols.length - 2)
  base.take 5 ++ qed_items ++ base.drop 5

/-- Column selection of `to_csv(columns=sel)`: reindex the table by the
selected labels, looking each label up in the original label list. -/
def selectColumns (df : DFrame) (sel : List Cell) : DFrame :=
  { cols := sel,
    rows := df.rows.map (fun r => sel.map (fun c =>
      match idxCol df.cols c with
      | some i => getCellD r i
      | none => Cell.null)) }

/-- Data of the column labelled `c`, top to bottom. -/
def getColData (df : DFrame) (c : Cell) : List Cell :=
  match idxCol df.cols c with
  | some i => df.rows.map (fun r => getCellD r i)
  | none => []

/-- File system model for the output write step: an association list from
file name to contents, most recent write first. -/
abbrev FileSys : Type := List (String × String)

/-- Contents of a named file, when present. -/
def fsLookup (fs : FileSys) (name : String) : Option String :=
  List.lookup name fs

/-- Creation or overwrite of a named file. -/
def fsWrite (fs : FileSys) (name contents : String) : FileSys :=
  (name, contents) :: fs

/-- Removal of a named file. -/
def fsRemove (fs : FileSys) (name : String) : FileSys :=
  fs.filter (fun p => decide (p.1 ≠ name))

/-- Model of `os.rename(src, dst)`. -/
def fsRename (fs : FileSys) (src dst : String) : FileSys :=
  match fsLookup fs src with
  | none => fs
  | some c => fsWrite (fsRemove fs src) dst c

/-- Root of `os.path.splitext`: everything before the last dot (the whole
name when there is no dot). -/
def splitextRoot (p : String) : String :=
  match p.data.reverse.findIdx? (fun c => c = '.') with
  | none => p
  | some k => String.mk (p.data.take (p.data.length - 1 - k))

/-- Temporary output name used by `main`:
`os.path.splitext(outfile)[0] + '_tmp.csv'`. -/
def tmp_outfile (outfile : String) : String :=
  splitextRoot outfile ++ "_tmp.csv"

/-- State of the file system after the attempted `df.to_csv(tmp_outfile)`.
The attempt outcome is a parameter: `some c` when the temporary file ends
up holding `c` (possibly empty on a truncated write), `none` when the
interrupted write left no file at all.  Only the temporary file is
touched. -/
def fs_after_to_csv (fs : FileSys) (outfile : String) (written : Option String) : FileSys :=
  match written with
  | some c => fsWrite fs (tmp_outfile outfile) c
  | none => fs

/-- Full-table write step of `main`: write the temporary file, fail when
it is missing, fail when it is empty, otherwise rename it over the output
file.  An error models the logged message plus `sys.exit(1)`. -/
def write_step (fs : FileSys) (outfile : String) (written : Option String) : Except String FileSys :=
  let tmp := tmp_outfile outfile
  let fs1 := fs_after_to_csv fs outfile written
  if (fsLookup fs1 tmp).isNone then
    Except.error "Output CSV file was not written."
  else if ((fsLookup fs1 tmp).getD "").length = 0 then
    Except.error "Output CSV is empty."
  else
    Except.ok (fsRename fs1 tmp outfile)

/-- Python truthiness of the optional `-min_res` float argument: absent
(`None`) and `0.0` are both falsy. -/
def pyTruthyFloat : Option Rat → Bool
  | none => false
  | some v => decide (v ≠ 0)

/-- Threshold step of `main`: the Resolution Filter runs only when
`cmd_args.min_res` is truthy. -/
def apply_res_filter (min_res : Option Rat) (df : DFrame) : Except String DFrame :=
  if pyTruthyFloat min_res then
    filter_by_res df (min_res.getD 0) resDisplayCol
  else
    Except.ok df

/-! ### Lemmas about the generic list helpers -/

theorem uniqueAux_congr {α : Type} [DecidableEq α] :
    ∀ (t s1 s2 : List α), (∀ x, x ∈ s1 ↔ x ∈ s2) → uniqueAux t s1 = uniqueAux t s2
  | [], _, _, _ => rfl
  | a :: t, s1, s2, h => by
    simp only [uniqueAux]
    by_cases ha : a ∈ s1
    · rw [if_pos ha, if_pos ((h a).mp ha)]
      exact uniqueAux_congr t s1 s2 h
    · rw [if_neg ha, if_neg (fun hc => ha ((h a).mpr hc))]
      congr 1
      exact uniqueAux_congr t (a :: s1) (a :: s2) (fun x => by simp [h x])

theorem uniqueAux_push {α : Type} [DecidableEq α] :
    ∀ (t : List α) (seen : List α) (a : α),
      uniqueAux t (a :: seen) = uniqueAux (t.filter (fun x => decide (x ≠ a))) seen
  | [], _, _ => rfl
  | b :: t, seen, a => by
    simp only [List.filter_cons]
    by_cases hba : b = a
    · subst hba
      rw [if_neg (by simp)]
      simp only [uniqueAux]
      rw [if_pos (List.mem_cons_self b seen)]
      exact uniqueAux_push t seen b
    · rw [if_pos (by simp [hba])]
      simp only [uniqueAux]
      by_cases hbs : b ∈ seen
      · rw [if_pos (List.mem_cons_of_mem a hbs), if_pos hbs]
        exact uniqueAux_push t seen a
      · rw [if_neg (fun hc => by rcases List.mem_cons.mp hc with h | h; exact hba h; exact hbs h),
            if_neg hbs]
        congr 1
        rw [uniqueAux_congr t (b :: a :: seen) (a :: b :: seen)
          (fun x => by simp only [List.mem_cons]; tauto)]
        exact uniqueAux_push t (b :: seen) a

theorem unique_nil {α : Type} [DecidableEq α] : unique ([] : List α) = [] := rfl

theorem unique_cons {α : Type} [DecidableEq α] (a : α) (l : List α) :
    unique (a :: l) = a :: unique (l.filter (fun x => decide (x ≠ a))) := by
  show uniqueAux (a :: l) [] = _
  simp only [uniqueAux, List.not_mem_nil, if_false]
  congr 1
  exact uniqueAux_push l [] a

theorem mem_unique_aux {α : Type} [DecidableEq α] (x : α) :
    ∀ (n : Nat) (l : List α), l.length ≤ n → (x ∈ unique l ↔ x ∈ l)
  | _, [], _ => by simp [unique_nil]
  | 0, a :: l, h => absurd h (by simp)
  | n + 1, a :: l, h => by
    have hlen : (l.filter (fun y => decide (y ≠ a))).length ≤ n :=
      le_trans (List.length_filter_le _ _) (Nat.succ_le_succ_iff.mp h)
    rw [unique_cons]
    simp only [List.mem_cons]
    rw [mem_unique_aux x n _ hlen]
    simp only [List.mem_filter, decide_eq_true_eq]
    by_cases hxa : x = a <;> simp [hxa]

theorem mem_unique {α : Type} [DecidableEq α] {x : α} {l : List α} :
    x ∈ unique l ↔ x ∈ l :=
  mem_unique_aux x l.length l le_rfl

theorem nodup_unique_aux {α : Type} [DecidableEq α] :
    ∀ (n : Nat) (l : List α), l.length ≤ n → (unique l).Nodup
  | _, [], _ => by simp [unique_nil]
  | 0, a :: l, h => absurd h (by simp)
  | n + 1, a :: l, h => by
    have hlen : (l.filter (fun y => decide (y ≠ a))).length ≤ n :=
      le_trans (List.length_filter_le _ _) (Nat.succ_le_succ_iff.mp h)
    rw [unique_cons, List.nodup_cons]
    refine ⟨fun hc => ?_, nodup_unique_aux n _ hlen⟩
    have := (mem_unique.mp hc)
    simp at this
  
theorem nodup_unique {α : Type} [DecidableEq α] (l : List α) : (unique l).Nodup :=
  nodup_unique_aux l.length l le_rfl

theorem unique_filter_aux {α : Type} [DecidableEq α] (p : α → Bool) :
    ∀ (n : Nat) (l : List α), l.length ≤ n → unique (l.filter p) = (unique l).filter p
  | _, [], _ => by simp [unique_nil]
  | 0, a :: l, h => absurd h (by simp)
  | n + 1, a :: l, h => by
    have hlen : (l.filter (fun y => decide (y ≠ a))).length ≤ n :=
      le_trans (List.length_filter_le _ _) (Nat.succ_le_succ_iff.mp h)
    by_cases hp : p a = true
    · rw [List.filter_cons_of_pos hp, unique_cons, unique_cons, List.filter_cons_of_pos hp]
      congr 1
      rw [List.filter_filter, ← unique_filter_aux p n _ hlen, List.filter_filter]
      exact congrArg unique (List.filter_congr (fun x _ => Bool.and_comm (decide (x ≠ a)) (p x)))
    · have hp' : p a = false := Bool.eq_false_iff.mpr hp
      rw [List.filter_cons_of_neg (by simp [hp']), unique_cons, List.filter_cons_of_neg (by simp [hp'])]
      rw [← unique_filter_aux p n _ hlen, List.filter_filter]
      refine congrArg unique (List.filter_congr (fun x hx => ?_))
      by_cases hpx : p x = true
      · have hxa : x ≠ a := fun hc => by rw [hc, hp'] at hpx; exact Bool.false_ne_true hpx
        simp [hpx, hxa]
      · simp [Bool.eq_false_iff.mpr hpx]

theorem unique_filter {α : Type} [DecidableEq α] (p : α → Bool) (l : List α) :
    unique (l.filter p) = (unique l).filter p :=
  unique_filter_aux p l.length l le_rfl

theorem unique_ne_nil {α : Type} [DecidableEq α] {l : List α} (h : l ≠ []) :
    unique l ≠ [] := by
  cases l with
  | nil => exact absurd rfl h
  | cons a t => rw [unique_cons]; exact List.cons_ne_nil _ _

theorem headD_mem {α : Type} {l : List α} (d : α) (h : l ≠ []) : l.headD d ∈ l := by
  cases l with
  | nil => exact absurd rfl h
  | cons a t => simp

theorem idxCol_lt {α : Type} [DecidableEq α] (l : List α) (x : α) :
    ∀ i, idxCol l x = some i → i < l.length := by
  induction l with
  | nil => intro i h; simp [idxCol] at h
  | cons a t ih =>
    intro i h
    simp only [idxCol] at h
    by_cases hax : a = x
    · rw [if_pos hax] at h
      injection h with h
      rw [← h]
      simp
    · rw [if_neg hax] at h
      cases ht : idxCol t x with
      | none => rw [ht] at h; simp at h
      | some j =>
        rw [ht] at h
        simp only [Option.map_some'] at h
        injection h with h
        have := ih j ht
        simp only [List.length_cons]
        omega

theorem idxCol_getD {α : Type} [DecidableEq α] (l : List α) (x d : α) :
    ∀ i, idxCol l x = some i → l.getD i d = x := by
  induction l with
  | nil => intro i h; simp [idxCol] at h
  | cons a t ih =>
    intro i h
    simp only [idxCol] at h
    by_cases hax : a = x
    · rw [if_pos hax] at h
      injection h with h
      rw [← h]
      simpa using hax
    · rw [if_neg hax] at h
      cases ht : idxCol t x with
      | none => rw [ht] at h; simp at h
      | some j =>
        rw [ht] at h
        simp only [Option.map_some'] at h
        injection h with h
        rw [← h, List.getD_cons_succ]
        exact ih j ht

theorem idxCol_isSome_of_mem {α : Type} [DecidableEq α] {l : List α} {x : α} (h : x ∈ l) :
    (idxCol l x).isSome = true := by
  induction l with
  | nil => simp at h
  | cons a t ih =>
    simp only [idxCol]
    by_cases hax : a = x
    · simp [hax]
    · rw [if_neg hax]
      rcases List.mem_cons.mp h with h1 | h1
      · exact absurd h1.symm hax
      · cases ht : idxCol t x with
        | none => have := ih h1; rw [ht] at this; simp at this
        | some j => simp

theorem idxCol_of_nodup {α : Type} [DecidableEq α] (l : List α) (x d : α)
    (hnd : l.Nodup) : ∀ i, i < l.length → l.getD i d = x → idxCol l x = some i := by
  induction l with
  | nil => intro i h; simp at h
  | cons a t ih =>
    intro i hi hget
    rcases List.nodup_cons.mp hnd with ⟨hna, hndt⟩
    cases i with
    | zero =>
      simp only [List.getD_cons_zero] at hget
      simp [idxCol, hget]
    | succ j =>
      rw [List.getD_cons_succ] at hget
      have hjlt : j < t.length := by simp only [List.length_cons] at hi; omega
      have hxt : x ∈ t := by
        rw [← hget]
        rw [List.getD_eq_getElem?_getD, List.getElem?_eq_getElem hjlt]
        exact List.getElem_mem _
      have hax : a ≠ x := fun hc => hna (hc ▸ hxt)
      simp only [idxCol, if_neg hax, ih hndt j hjlt hget, Option.map_some']

theorem getCellD_set_self (r : List Cell) (i : Nat) (v : Cell) (h : i < r.length) :
    getCellD (r.set i v) i = v := by
  unfold getCellD
  rw [List.getD_eq_getElem?_getD, List.getElem?_set_self h]
  rfl

theorem getCellD_set_ne (r : List Cell) (i j : Nat) (v : Cell) (h : i ≠ j) :
    getCellD (r.set i v) j = getCellD r j := by
  unfold getCellD
  rw [List.getD_eq_getElem?_getD, List.getD_eq_getElem?_getD, List.getElem?_set_ne h]

theorem getCellD_eq_null_of_le (r : List Cell) (i : Nat) (h : r.length ≤ i) :
    getCellD r i = Cell.null := by
  unfold getCellD
  rw [List.getD_eq_getElem?_getD, List.getElem?_eq_none h]
  rfl

theorem lt_length_of_getCellD_ne_null {r : List Cell} {i : Nat}
    (h : getCellD r i ≠ Cell.null) : i < r.length := by
  by_contra hc
  exact h (getCellD_eq_null_of_le r i (Nat.le_of_not_lt hc))

theorem specDedupGo_eq_uniqueAux {α : Type} [DecidableEq α] :
    ∀ (t s1 s2 : List α), (∀ x, x ∈ s1 ↔ x ∈ s2) → specDedupGo t s1 = uniqueAux t s2
  | [], _, _, _ => rfl
  | a :: t, s1, s2, h => by
    simp only [specDedupGo, uniqueAux]
    by_cases ha : a ∈ s1
    · rw [if_pos ha, if_pos ((h a).mp ha)]
      exact specDedupGo_eq_uniqueAux t (s1 ++ [a]) s2
        (fun x => by
          simp only [List.mem_append, List.mem_singleton, h x]
          constructor
          · rintro (hx | hx)
            · exact hx
            · exact hx ▸ (h a).mp ha
          · exact Or.inl)
    · rw [if_neg ha, if_neg (fun hc => ha ((h a).mpr hc))]
      congr 1
      exact specDedupGo_eq_uniqueAux t (s1 ++ [a]) (a :: s2)
        (fun x => by simp only [List.mem_append, List.mem_singleton, List.mem_cons, h x]; tauto)

theorem specDedup_eq_unique {α : Type} [DecidableEq α] (l : List α) :
    specDedup l = unique l :=
  specDedupGo_eq_uniqueAux l [] [] (fun _ => Iff.rfl)

theorem nColsOf_eq_zero_iff (d : List (List String)) :
    nColsOf d = 0 ↔ ∀ r ∈ d, r = [] := by
  induction d with
  | nil => simp [nColsOf]
  | cons r t ih =>
    show max r.length (nColsOf t) = 0 ↔ _
    rw [Nat.max_eq_zero_iff]
    simp only [List.length_eq_zero, List.mem_cons]
    constructor
    · rintro ⟨h1, h2⟩ x (rfl | hx)
      · exact h1
      · exact (ih.mp h2) x hx
    · intro hall
      exact ⟨hall r (Or.inl rfl), ih.mpr (fun x hx => hall x (Or.inr hx))⟩

/-- Characterization of the raised-on-empty check of the Table Builder:
the freshly parsed DataFrame is empty exactly when no rows were parsed or
every parsed row is empty. -/
theorem mkDataFrame_empty_iff (d : List (List String)) :
    ((mkDataFrame d).rows.isEmpty || (mkDataFrame d).cols.isEmpty) = true ↔
      (d = [] ∨ ∀ r ∈ d, r = []) := by
  simp only [mkDataFrame, Bool.or_eq_true, List.isEmpty_iff, List.map_eq_nil_iff,
    List.range_eq_nil]
  rw [nColsOf_eq_zero_iff]

/-! ### Lemmas about `List.mapM` over `Option` -/

theorem mapM_option_isSome_iff {α β : Type} (f : α → Option β) (l : List α) :
    (l.mapM f).isSome = true ↔ ∀ a ∈ l, (f a).isSome = true := by
  induction l with
  | nil => exact iff_of_true rfl (by simp)
  | cons a t ih =>
    rw [List.mapM_cons, List.forall_mem_cons]
    cases hfa : f a with
    | none => simp [hfa]
    | some b =>
      simp only [hfa, Option.isSome_some, true_and]
      rw [← ih]
      cases hmt : t.mapM f <;> simp [hmt]

theorem mapM_option_eq_none_iff {α β : Type} (f : α → Option β) (l : List α) :
    l.mapM f = none ↔ ∃ a ∈ l, f a = none := by
  constructor
  · intro h
    by_contra hc
    push_neg at hc
    have : ∀ a ∈ l, (f a).isSome = true := by
      intro a ha
      cases hfa : f a with
      | none => exact absurd hfa (hc a ha)
      | some b => rfl
    have := (mapM_option_isSome_iff f l).mpr this
    rw [h] at this
    simp at this
  · intro ⟨a, ha, hfa⟩
    cases hm : l.mapM f with
    | none => rfl
    | some bs =>
      have := (mapM_option_isSome_iff f l).mp (by rw [hm]; rfl) a ha
      rw [hfa] at this
      simp at this

theorem mapM_option_map {α β : Type} (f : α → Option β) (g : α → β) :
    ∀ (l : List α), (∀ a ∈ l, f a = some (g a)) → l.mapM f = some (l.map g)
  | [], _ => rfl
  | a :: t, h => by
    rw [List.mapM_cons, h a (List.mem_cons_self a t),
      mapM_option_map f g t (fun x hx => h x (List.mem_cons_of_mem a hx))]
    rfl

/-! ### Claim C4: when the Table Builder raises on emptiness -/

/-- Claim C4 (counterexample): a raw fetch consisting of just the header
line parses to a one-row DataFrame, which passes the emptiness check, yet
the resulting table has zero rows and is returned successfully — so
`EmptyResult` is not raised "exactly when the resulting table has zero
rows". -/
theorem table_builder_header_only_no_error :
    get_dataframe_from_pdbs [["structureId"]] =
      Except.ok { cols := [Cell.str "PDB ID"], rows := [] } := by
  rfl

/-- Claim C4 (amended): the Table Builder fails with `EmptyResult` exactly
when the freshly parsed raw table is empty — no parsed rows at all, or
only empty rows — which in particular happens when a technique matches
zero identifiers (empty concatenated fetch).  A table that only becomes
zero-row after deduplication and the header/trailer discard is returned
successfully. -/
theorem table_builder_empty_error_iff :
    (∀ d : List (List String),
      get_dataframe_from_pdbs d = Except.error "The DataFrame object is empty." ↔
        (d = [] ∨ ∀ r ∈ d, r = []))
    ∧ get_dataframe_from_pdbs [] = Except.error "The DataFrame object is empty." := by
  constructor
  · intro d
    simp only [get_dataframe_from_pdbs]
    by_cases hc : ((mkDataFrame d).rows.isEmpty || (mkDataFrame d).cols.isEmpty) = true
    · rw [if_pos hc]
      exact iff_of_true rfl ((mkDataFrame_empty_iff d).mp hc)
    · rw [if_neg hc]
      constructor
      · intro heq
        exact absurd heq (by simp)
      · intro hd
        exact absurd ((mkDataFrame_empty_iff d).mpr hd) hc
  · rfl

/-! ### Claim C5: the Table Builder refines the specification pipeline -/

/-- Claim C5: on any parsed raw input that passes the emptiness check, the
Table Builder's output equals the reference pipeline of the specification:
dedup rows keeping first occurrences, promote row 0 to the header, discard
row 0 and the last row, and rename columns through the Field Map.  (Both
sides consume the same comma-delimited parse of the raw text, so the
comparison is stated over the parsed rows.) -/
theorem table_builder_eq_spec_pipeline (d : List (List String))
    (hne : d ≠ []) (hcol : ∃ r ∈ d, r ≠ []) :
    get_dataframe_from_pdbs d = Except.ok (spec_table_builder d) := by
  have hcond : ((mkDataFrame d).rows.isEmpty || (mkDataFrame d).cols.isEmpty) ≠ true := by
    intro hc
    rcases (mkDataFrame_empty_iff d).mp hc with h | h
    · exact hne h
    · obtain ⟨r, hr, hrne⟩ := hcol
      exact hrne (h r hr)
  simp only [get_dataframe_from_pdbs, if_neg hcond]
  unfold spec_table_builder
  rw [specDedup_eq_unique, List.drop_one]
  rfl

/-- Claim C5 (witness): a concrete fetch with a duplicated data row, a
short row, and a trailing blank row, on which the Table Builder and the
reference pipeline agree. -/
theorem table_builder_eq_spec_pipeline_inst :
    ([["structureId", "resolution"], ["1ABC", "2.0"], ["1ABC", "2.0"], ["2DEF"], [""]] ≠
        ([] : List (List String)))
    ∧ get_dataframe_from_pdbs
        [["structureId", "resolution"], ["1ABC", "2.0"], ["1ABC", "2.0"], ["2DEF"], [""]] =
      Except.ok (spec_table_builder
        [["structureId", "resolution"], ["1ABC", "2.0"], ["1ABC", "2.0"], ["2DEF"], [""]]) :=
  ⟨by decide,
   table_builder_eq_spec_pipeline _ (by decide)
     ⟨["structureId", "resolution"], by decide, by decide⟩⟩

/-! ### Claim C9: a zero threshold disables the Resolution Filter -/

/-- Claim C9: `main` tests `cmd_args.min_res` for truthiness, so a
threshold equal to `0.0` behaves exactly as an absent threshold: the
Resolution Filter is not applied and the Full Table passes through
unchanged. -/
theorem zero_min_res_skips_filter :
    ∀ df : DFrame,
      apply_res_filter (some 0) df = Except.ok df ∧
      apply_res_filter (some 0) df = apply_res_filter none df := by
  intro df
  constructor <;> simp [apply_res_filter, pyTruthyFloat]

/-! ### Claims C3 and C6: the Resolution Filter -/

/-- Test that a coerced cell is an actual number (`NaN` excluded). -/
def isNumCoerced : Option Cell → Bool
  | some (Cell.num _) => true
  | _ => false

theorem filter_rows_core (i : Nat) (t : Rat) :
    ∀ (rs : List (List Cell)),
      (∀ r ∈ rs, isNumCoerced (toNumericCell (getCellD r i)) = true) →
      ∃ rs', rs.mapM (fun r => (toNumericCell (getCellD r i)).map (fun c => r.set i c)) = some rs' ∧
        rs'.filter (fun r => match getCellD r i with
            | Cell.num q => decide (q ≤ t)
            | _ => false)
          = rs.filterMap (fun r => match toNumericCell (getCellD r i) with
              | some (Cell.num q) =>
                if decide (q ≤ t) = true then some (r.set i (Cell.num q)) else none
              | _ => none)
  | [], _ => ⟨[], rfl, rfl⟩
  | r :: rs, h => by
    have hr := h r (List.mem_cons_self r rs)
    obtain ⟨rs', hm, hf⟩ :=
      filter_rows_core i t rs (fun x hx => h x (List.mem_cons_of_mem r hx))
    cases hc : toNumericCell (getCellD r i) with
    | none => rw [hc] at hr; simp [isNumCoerced] at hr
    | some c =>
      cases c with
      | null => rw [hc] at hr; simp [isNumCoerced] at hr
      | str s => rw [hc] at hr; simp [isNumCoerced] at hr
      | num q =>
        have hlt : i < r.length := lt_length_of_getCellD_ne_null (fun hnull => by
          rw [hnull] at hc
          simp [toNumericCell] at hc)
        refine ⟨r.set i (Cell.num q) :: rs', ?_, ?_⟩
        · rw [List.mapM_cons, hc]
          simp only [Option.map_some', Option.some_bind, hm]
          rfl
        · rw [List.filter_cons, List.filterMap_cons, hc,
            getCellD_set_self r i (Cell.num q) hlt]
          by_cases hq : q ≤ t <;> simp [hq, hf]

/-- Claim C3: on a table whose resolution column fully coerces to numbers,
the Resolution Filter succeeds and returns a table with the same columns
whose rows are exactly the input rows with resolution at most the
threshold (inclusive), in input order; the only change to a retained row
is that its resolution cell now holds the coerced numeric value. -/
theorem filter_by_res_keeps_le (df : DFrame) (t : Rat) (rc : String) (i : Nat)
    (hi : idxCol df.cols (Cell.str rc) = some i)
    (hnum : df.rows.all (fun r => isNumCoerced (toNumericCell (getCellD r i))) = true) :
    filter_by_res df t rc =
      Except.ok { cols := df.cols,
                  rows := df.rows.filterMap (fun r =>
                    match toNumericCell (getCellD r i) with
                    | some (Cell.num q) =>
                      if decide (q ≤ t) = true then some (r.set i (Cell.num q)) else none
                    | _ => none) } := by
  have hall : ∀ r ∈ df.rows, isNumCoerced (toNumericCell (getCellD r i)) = true :=
    fun r hr => by
      have := List.all_eq_true.mp hnum r hr
      simpa using this
  obtain ⟨rs', hm, hf⟩ := filter_rows_core i t df.rows hall
  simp only [filter_by_res, hi, hm, hf]

/-- Example table for the filter boundary: resolutions 2.4, 2.5, 2.6. -/
def dfResEx : DFrame :=
  { cols := [Cell.str "PDB ID", Cell.str "Resolution"],
    rows := [[Cell.str "A1", Cell.str "2.4"],
             [Cell.str "B2", Cell.str "2.5"],
             [Cell.str "C3", Cell.str "2.6"]] }

/-- Claim C3 (witness): with threshold 2.5 and resolutions 2.4, 2.5, 2.6,
exactly the first two rows survive (inclusive boundary), in order. -/
theorem filter_by_res_keeps_le_inst :
    filter_by_res dfResEx (mkRat 5 2) "Resolution" =
      Except.ok { cols := [Cell.str "PDB ID", Cell.str "Resolution"],
                  rows := [[Cell.str "A1", Cell.num (mkRat 12 5)],
                           [Cell.str "B2", Cell.num (mkRat 5 2)]] } := by
  have h := filter_by_res_keeps_le dfResEx (mkRat 5 2) "Resolution" 1 (by decide) (by decide)
  rw [h]
  decide

/-- Claim C6: given that the resolution column exists, the Resolution
Filter fails (the fatal `NonNumericValue` error of the specification)
exactly when some cell of that column cannot be coerced to a number, and
succeeds otherwise. -/
theorem filter_by_res_error_iff (df : DFrame) (t : Rat) (rc : String) (i : Nat)
    (hi : idxCol df.cols (Cell.str rc) = some i) :
    filter_by_res df t rc = Except.error "ValueError: Unable to parse string" ↔
      ∃ r ∈ df.rows, toNumericCell (getCellD r i) = none := by
  simp only [filter_by_res, hi]
  cases hm : df.rows.mapM (fun r => (toNumericCell (getCellD r i)).map (fun c => r.set i c)) with
  | none =>
    apply iff_of_true rfl
    obtain ⟨r, hr, hrn⟩ := (mapM_option_eq_none_iff _ _).mp hm
    exact ⟨r, hr, Option.map_eq_none'.mp hrn⟩
  | some rs =>
    apply iff_of_false (by simp)
    rintro ⟨r, hr, hnone⟩
    have := (mapM_option_isSome_iff _ _).mp (by rw [hm]; rfl) r hr
    rw [hnone] at this
    simp at this

/-- Example table with a non-numeric resolution cell. -/
def dfResBad : DFrame :=
  { cols := [Cell.str "PDB ID", Cell.str "Resolution"],
    rows := [[Cell.str "A1", Cell.str "2.4"],
             [Cell.str "B2", Cell.str "abc"]] }

/-- Claim C6 (witness): one unparseable resolution cell makes the whole
filter step fail. -/
theorem filter_by_res_error_iff_inst :
    filter_by_res dfResBad 2 "Resolution" =
      Except.error "ValueError: Unable to parse string" :=
  (filter_by_res_error_iff dfResBad 2 "Resolution" 1 (by decide)).mpr
    ⟨[Cell.str "B2", Cell.str "abc"], by decide, by decide⟩

/-! ### Claim C7: the checked write-then-rename step -/

theorem string_length_zero_iff (c : String) : c.length = 0 ↔ c = "" := by
  constructor
  · intro h
    have hd : c.data = [] := List.length_eq_zero.mp h
    exact String.ext hd
  · intro h
    rw [h]
    rfl

theorem splitextRoot_append_csv (s : String) : splitextRoot (s ++ ".csv") = s := by
  have hdata : (s ++ ".csv").data = s.data ++ ['.', 'c', 's', 'v'] := by
    rw [String.data_append]
  have hrev : (s ++ ".csv").data.reverse = 'v' :: 's' :: 'c' :: '.' :: s.data.reverse := by
    rw [hdata, List.reverse_append]
    rfl
  have hidx : List.findIdx? (fun c => c = '.') (s ++ ".csv").data.reverse = some 3 := by
    rw [hrev]
    simp [List.findIdx?_cons]
  unfold splitextRoot
  rw [hidx]
  show String.mk ((s ++ ".csv").data.take ((s ++ ".csv").data.length - 1 - 3)) = s
  rw [hdata]
  have hlen : (s.data ++ ['.', 'c', 's', 'v']).length - 1 - 3 = s.data.length := by
    simp
  rw [hlen, List.take_left]

theorem tmp_outfile_ne (s : String) : tmp_outfile (s ++ ".csv") ≠ s ++ ".csv" := by
  unfold tmp_outfile
  rw [splitextRoot_append_csv]
  intro hc
  have := congrArg (fun t => t.data.length) hc
  simp [String.data_append] at this

theorem fsLookup_write_ne (fs : FileSys) (n m c : String) (h : m ≠ n) :
    fsLookup (fsWrite fs n c) m = fsLookup fs m := by
  show List.lookup m ((n, c) :: fs) = List.lookup m fs
  simp [List.lookup, beq_eq_false_iff_ne.mpr h]

theorem fsLookup_write_self (fs : FileSys) (n c : String) :
    fsLookup (fsWrite fs n c) n = some c := by
  show List.lookup n ((n, c) :: fs) = some c
  simp [List.lookup]

theorem fs_after_to_csv_untouched (fs : FileSys) (outfile name : String)
    (written : Option String) (h : name ≠ tmp_outfile outfile) :
    fsLookup (fs_after_to_csv fs outfile written) name = fsLookup fs name := by
  unfold fs_after_to_csv
  cases written with
  | none => rfl
  | some c => exact fsLookup_write_ne fs (tmp_outfile outfile) name c h

/-- Claim C7: the write step writes only to the temporary file, then checks
existence and nonzero size before renaming.  Whatever the outcome of the
attempted `to_csv` (including an interrupted write), (i) on any check
failure the run errors out with the previous output file unchanged, (ii)
the check fails exactly when the temporary file is missing or empty, and
(iii) on success the output file receives exactly the checked nonempty
temporary contents — so the previous artifact is never overwritten by a
missing or empty one. -/
theorem write_step_protects_output (fs : FileSys) (stem outfile : String)
    (written : Option String) (hout : outfile = stem ++ ".csv") :
    (∀ e, write_step fs outfile written = Except.error e →
        fsLookup (fs_after_to_csv fs outfile written) outfile = fsLookup fs outfile)
    ∧ ((∃ e, write_step fs outfile written = Except.error e) ↔
        (fsLookup (fs_after_to_csv fs outfile written) (tmp_outfile outfile) = none ∨
         fsLookup (fs_after_to_csv fs outfile written) (tmp_outfile outfile) = some ""))
    ∧ (∀ fs', write_step fs outfile written = Except.ok fs' →
        ∃ c, fsLookup (fs_after_to_csv fs outfile written) (tmp_outfile outfile) = some c ∧
          c.length ≠ 0 ∧ fsLookup fs' outfile = some c) := by
  have hne : outfile ≠ tmp_outfile outfile := by
    rw [hout]
    exact fun hc => tmp_outfile_ne stem hc.symm
  have hpres : fsLookup (fs_after_to_csv fs outfile written) outfile = fsLookup fs outfile :=
    fs_after_to_csv_untouched fs outfile outfile written hne
  refine ⟨fun e _ => hpres, ?_, ?_⟩
  · simp only [write_step]
    cases hl : fsLookup (fs_after_to_csv fs outfile written) (tmp_outfile outfile) with
    | none => simp
    | some c =>
      simp only [Option.isNone_some, Bool.false_eq_true, if_false, Option.getD_some,
        Option.some.injEq]
      by_cases hz : c.length = 0
      · rw [if_pos hz]
        simp [(string_length_zero_iff c).mp hz]
      · rw [if_neg hz]
        constructor
        · rintro ⟨e, he⟩
          exact absurd he (by simp)
        · rintro (h | h)
          · exact absurd h (by simp)
          · exact absurd ((string_length_zero_iff c).mpr h) hz
  · intro fs' hok
    simp only [write_step] at hok
    cases hl : fsLookup (fs_after_to_csv fs outfile written) (tmp_outfile outfile) with
    | none => rw [hl] at hok; simp at hok
    | some c =>
      rw [hl] at hok
      simp only [Option.isNone_some, Bool.false_eq_true, if_false, Option.getD_some] at hok
      by_cases hz : c.length = 0
      · rw [if_pos hz] at hok
        exact absurd hok (by simp)
      · rw [if_neg hz] at hok
        refine ⟨c, rfl, hz, ?_⟩
        have hfs' : fs' = fsRename (fs_after_to_csv fs outfile written)
            (tmp_outfile outfile) outfile := by
          injection hok with h
          exact h.symm
        rw [hfs', fsRename, hl]
        exact fsLookup_write_self _ outfile c

/-- Claim C7 (witness): an interrupted write that leaves no temporary file
fails the existence check, and the previous output file keeps its old
contents. -/
theorem write_step_protects_output_inst :
    write_step ([("out.csv", "old")] : FileSys) "out.csv" none =
      Except.error "Output CSV file was not written."
    ∧ fsLookup (fs_after_to_csv ([("out.csv", "old")] : FileSys) "out.csv" none) "out.csv" =
        some "old" := by
  constructor
  · decide
  · have h := (write_step_protects_output ([("out.csv", "old")] : FileSys) "out" "out.csv"
      none (by decide)).1 "Output CSV file was not written." (by decide)
    rw [h]
    decide

/-! ### Claim C8: the export column splice -/

theorem getCellD_map_sel (sel : List Cell) (f : Cell → Cell) (j : Nat) (hj : j < sel.length) :
    getCellD (sel.map f) j = f (sel.getD j Cell.null) := by
  unfold getCellD
  rw [List.getD_eq_getElem?_getD, List.getElem?_map, List.getD_eq_getElem?_getD,
    List.getElem?_eq_getElem hj]
  rfl

theorem getColData_selectColumns (df : DFrame) (sel : List Cell) (c : Cell) (hc : c ∈ sel) :
    getColData (selectColumns df sel) c =
      df.rows.map (fun r => match idxCol df.cols c with
        | some i => getCellD r i
        | none => Cell.null) := by
  obtain ⟨j, hj⟩ := Option.isSome_iff_exists.mp (idxCol_isSome_of_mem hc)
  simp only [getColData, selectColumns, hj, List.map_map]
  refine List.map_congr_left (fun r _ => ?_)
  show getCellD (sel.map (fun c' => match idxCol df.cols c' with
    | some i => getCellD r i
    | none => Cell.null)) j = _
  rw [getCellD_map_sel sel _ j (idxCol_lt sel c j hj), idxCol_getD sel c Cell.null j hj]

/-- Claim C8: for a condensed table with at least two columns, the export
order is all columns but the last two with those two spliced in at
position 5, and reindexing by the export order changes no column's data. -/
theorem export_columns_spec (df : DFrame) (l : List Cell) (a b : Cell)
    (hcols : df.cols = l ++ [a, b]) :
    export_columns df.cols = l.take 5 ++ [a, b] ++ l.drop 5
    ∧ ∀ c ∈ df.cols,
        getColData (selectColumns df (export_columns df.cols)) c = getColData df c := by
  have hsplice : export_columns (l ++ [a, b]) = l.take 5 ++ [a, b] ++ l.drop 5 := by
    simp only [export_columns]
    rw [show (l ++ [a, b]).length - 2 = l.length by simp, List.take_left, List.drop_left]
  constructor
  · rw [hcols]
    exact hsplice
  · intro c hc
    have hmem : c ∈ export_columns df.cols := by
      rw [hcols, hsplice]
      rw [hcols] at hc
      simp only [List.mem_append] at hc ⊢
      rcases hc with hc | hc
      · have : c ∈ l.take 5 ++ l.drop 5 := by rw [List.take_append_drop]; exact hc
        rcases List.mem_append.mp this with h5 | h5 <;> tauto
      · tauto
    rw [getColData_selectColumns df _ c hmem]
    show _ = (match idxCol df.cols c with
      | some i => df.rows.map (fun r => getCellD r i)
      | none => [])
    cases hidx : idxCol df.cols c with
    | none =>
      have := idxCol_isSome_of_mem hc
      rw [hidx] at this
      simp at this
    | some i => simp [hidx]

/-- Example condensed table with seven columns for the export splice. -/
def dfCondEx : DFrame :=
  { cols := [Cell.str "c0", Cell.str "c1", Cell.str "c2", Cell.str "c3", Cell.str "c4",
             Cell.str "c5", Cell.str "qA", Cell.str "qB"],
    rows := [[Cell.str "v0", Cell.str "v1", Cell.str "v2", Cell.str "v3", Cell.str "v4",
              Cell.str "v5", Cell.str "vA", Cell.str "vB"]] }

/-- Claim C8 (witness): on an eight-column table the last two columns are
spliced in at position 5, and the data of a moved column is unchanged. -/
theorem export_columns_spec_inst :
    export_columns dfCondEx.cols =
      [Cell.str "c0", Cell.str "c1", Cell.str "c2", Cell.str "c3", Cell.str "c4",
       Cell.str "qA", Cell.str "qB", Cell.str "c5"]
    ∧ getColData (selectColumns dfCondEx (export_columns dfCondEx.cols)) (Cell.str "c5") =
        getColData dfCondEx (Cell.str "c5") := by
  have h := export_columns_spec dfCondEx
    [Cell.str "c0", Cell.str "c1", Cell.str "c2", Cell.str "c3", Cell.str "c4", Cell.str "c5"]
    (Cell.str "qA") (Cell.str "qB") (by decide)
  exact ⟨by rw [h.1]; decide, h.2 (Cell.str "c5") (by decide)⟩

/-! ### Claim C10: null cells merge as the literal token "nan" -/

/-- Claim C10: `astype(str)` renders a missing cell as the non-empty text
"nan", which therefore survives the blank filter of the Aggregator and
appears as a literal token of the merged string; among the stringified
values, exactly the empty string is excluded from the merge. -/
theorem aggregator_nan_token :
    astypeStr Cell.null = "nan"
    ∧ (∀ vals : List Cell, Cell.null ∈ vals →
        "nan" ∈ (unique (vals.map astypeStr)).filter (fun f => decide (f ≠ "")))
    ∧ (∀ (vals : List Cell) (s : String), s ∈ vals.map astypeStr →
        (s ∉ (unique (vals.map astypeStr)).filter (fun f => decide (f ≠ "")) ↔ s = ""))
    ∧ mergedValue (renameField "source") [Cell.str "A", Cell.null] = "A nan" := by
  refine ⟨rfl, ?_, ?_, by decide⟩
  · intro vals hv
    rw [List.mem_filter]
    refine ⟨mem_unique.mpr ?_, by decide⟩
    exact List.mem_map.mpr ⟨Cell.null, hv, rfl⟩
  · intro vals s hs
    rw [List.mem_filter]
    constructor
    · intro hns
      by_contra hne
      exact hns ⟨mem_unique.mpr hs, by simpa using hne⟩
    · intro hse
      rintro ⟨_, hdec⟩
      rw [hse] at hdec
      simp at hdec

/-- Claim C10 (witness): a concrete merge in which a null cell appears as
the token "nan" and an empty-string cell is dropped. -/
theorem aggregator_nan_token_inst :
    "nan" ∈ (unique ([Cell.str "A", Cell.null, Cell.str ""].map astypeStr)).filter
      (fun f => decide (f ≠ "")) :=
  aggregator_nan_token.2.1 [Cell.str "A", Cell.null, Cell.str ""] (by decide)

/-! ### Lemmas about the Aggregator -/

theorem mergedValue_eq_spec (c : String) (vals : List Cell) :
    mergedValue c vals = specMergedValue c vals := by
  unfold mergedValue specMergedValue
  rw [unique_filter]

theorem insertSorted_perm {α : Type} (le : α → α → Bool) (x : α) :
    ∀ l : List α, (insertSorted le x l).Perm (x :: l)
  | [] => List.Perm.refl _
  | y :: t => by
    unfold insertSorted
    by_cases h : le x y = true
    · rw [if_pos h]
    · rw [if_neg h]
      exact (List.Perm.cons y (insertSorted_perm le x t)).trans (List.Perm.swap x y t)

theorem sortBy_perm {α : Type} (le : α → α → Bool) : ∀ l : List α, (sortBy le l).Perm l
  | [] => List.Perm.refl _
  | a :: t => by
    show (insertSorted le a (sortBy le t)).Perm (a :: t)
    exact (insertSorted_perm le a (sortBy le t)).trans (List.Perm.cons a (sortBy_perm le t))

theorem mem_sortBy {α : Type} (le : α → α → Bool) (l : List α) (x : α) :
    x ∈ sortBy le l ↔ x ∈ l :=
  (sortBy_perm le l).mem_iff

theorem nodup_sortBy {α : Type} (le : α → α → Bool) (l : List α) (h : l.Nodup) :
    (sortBy le l).Nodup :=
  ((sortBy_perm le l).nodup_iff).mpr h

theorem length_sortBy {α : Type} (le : α → α → Bool) (l : List α) :
    (sortBy le l).length = l.length :=
  (sortBy_perm le l).length_eq

theorem mergeGroup_nil (cols : List Cell) (g : List (List Cell)) :
    mergeGroup cols [] g = g := rfl

theorem mergeGroup_cons_some (cols : List Cell) (c : String) (cns : List String)
    (g : List (List Cell)) (i : Nat) (h : idxCol cols (Cell.str c) = some i) :
    mergeGroup cols (c :: cns) g = mergeGroup cols cns
      (g.map (fun r => r.set i (Cell.str (mergedValue c (g.map (fun x => getCellD x i)))))) := by
  show mergeGroup cols cns (match idxCol cols (Cell.str c) with
    | none => g
    | some i =>
      g.map (fun r => r.set i (Cell.str (mergedValue c (g.map (fun x => getCellD x i)))))) = _
  rw [h]

theorem mergeGroup_cons_none (cols : List Cell) (c : String) (cns : List String)
    (g : List (List Cell)) (h : idxCol cols (Cell.str c) = none) :
    mergeGroup cols (c :: cns) g = mergeGroup cols cns g := by
  show mergeGroup cols cns (match idxCol cols (Cell.str c) with
    | none => g
    | some i =>
      g.map (fun r => r.set i (Cell.str (mergedValue c (g.map (fun x => getCellD x i)))))) = _
  rw [h]

theorem length_mergeGroup (cols : List Cell) :
    ∀ (cns : List String) (g : List (List Cell)),
      (mergeGroup cols cns g).length = g.length
  | [], _ => rfl
  | c :: cns, g => by
    cases h : idxCol cols (Cell.str c) with
    | none => rw [mergeGroup_cons_none cols c cns g h, length_mergeGroup cols cns g]
    | some i =>
      rw [mergeGroup_cons_some cols c cns g i h, length_mergeGroup cols cns _,
        List.length_map]

theorem mergeGroup_mem (cols : List Cell) :
    ∀ (cns : List String) (g : List (List Cell)),
      (∀ r ∈ g, r.length = cols.length) →
      cols.Nodup → cns.Nodup →
      (∀ c ∈ cns, (idxCol cols (Cell.str c)).isSome = true) →
      ∀ r' ∈ mergeGroup cols cns g, ∃ r ∈ g, r'.length = cols.length ∧
        (∀ c ∈ cns, ∀ i, idxCol cols (Cell.str c) = some i →
          getCellD r' i = Cell.str (mergedValue c (g.map (fun x => getCellD x i)))) ∧
        (∀ i, (∀ c ∈ cns, idxCol cols (Cell.str c) ≠ some i) → getCellD r' i = getCellD r i)
  | [], g, hwf, _, _, _, r', hr' =>
    ⟨r', hr', hwf r' hr', fun c hc => absurd hc (List.not_mem_nil c), fun _ _ => rfl⟩
  | c :: cns, g, hwf, hndc, hndn, hpres, r', hr' => by
    obtain ⟨ic, hic⟩ := Option.isSome_iff_exists.mp (hpres c (List.mem_cons_self c cns))
    rw [mergeGroup_cons_some cols c cns g ic hic] at hr'
    have hcnotin : c ∉ cns := (List.nodup_cons.mp hndn).1
    have hwf1 : ∀ r ∈ g.map (fun r =>
        r.set ic (Cell.str (mergedValue c (g.map (fun x => getCellD x ic))))),
        r.length = cols.length := by
      intro r hr
      obtain ⟨r0, hr0, rfl⟩ := List.mem_map.mp hr
      rw [List.length_set]
      exact hwf r0 hr0
    obtain ⟨r1, hr1mem, hr'len, hmerged, huntouched⟩ :=
      mergeGroup_mem cols cns _ hwf1 hndc (List.nodup_cons.mp hndn).2
        (fun c' h => hpres c' (List.mem_cons_of_mem c h)) r' hr'
    obtain ⟨r, hrmem, rfl⟩ := List.mem_map.mp hr1mem
    refine ⟨r, hrmem, hr'len, ?_, ?_⟩
    · intro c'' hc'' i hi
      rcases List.mem_cons.mp hc'' with rfl | hc''mem
      · have hiic : i = ic := by
          rw [hic] at hi
          injection hi with h
          exact h.symm
        subst hiic
        have huic : ∀ c' ∈ cns, idxCol cols (Cell.str c') ≠ some i := by
          intro c' hc' hceq
          have h1 := idxCol_getD cols (Cell.str c') Cell.null i hceq
          have h2 := idxCol_getD cols (Cell.str c'') Cell.null i hi
          rw [h1] at h2
          injection h2 with h2
          exact hcnotin (h2 ▸ hc')
        rw [huntouched i huic, getCellD_set_self r i _ (by
          rw [hwf r hrmem]
          exact idxCol_lt cols _ i hi)]
      · have hine : i ≠ ic := by
          intro he
          subst he
          have h1 := idxCol_getD cols (Cell.str c'') Cell.null i hi
          have h2 := idxCol_getD cols (Cell.str c) Cell.null i hic
          rw [h1] at h2
          injection h2 with h2
          exact hcnotin (h2 ▸ hc''mem)
        rw [hmerged c'' hc''mem i hi]
        refine congrArg (fun ll => Cell.str (mergedValue c'' ll)) ?_
        rw [List.map_map]
        exact List.map_congr_left (fun x _ => getCellD_set_ne x ic i _ (Ne.symm hine))
    · intro i hni
      have hine : ic ≠ i := fun he =>
        (hni c (List.mem_cons_self c cns)) (he ▸ hic)
      rw [huntouched i (fun c' hc' => hni c' (List.mem_cons_of_mem c hc')),
        getCellD_set_ne r ic i _ hine]

/-! ### Claim C1: the per-group, per-column merge policy -/

/-- Claim C1: in the Aggregator's output, every row carries, in each
mergeable column, the join of its own identifier group's distinct
stringified values with blanks excluded, in first-seen order — separated
by a single space, except the ligand-name column, which uses " | "
(both separators live inside `specMergedValue`). -/
theorem concat_merges_groups (df : DFrame) (col_names : List String) (cdf : DFrame)
    (ipdb : Nat) (hipdb : idxCol df.cols (Cell.str pdbDisplayCol) = some ipdb)
    (hwf : ∀ r ∈ df.rows, r.length = df.cols.length)
    (hndc : df.cols.Nodup) (hndn : col_names.Nodup)
    (hpdbn : pdbDisplayCol ∉ col_names)
    (hok : concat_column_data col_names df = Except.ok cdf)
    (c : String) (hc : c ∈ col_names) (i : Nat)
    (hi : idxCol df.cols (Cell.str c) = some i)
    (r : List Cell) (hr : r ∈ cdf.rows) :
    getCellD r i =
      Cell.str (specMergedValue c
        ((group_rows df ipdb (getCellD r ipdb)).map (fun x => getCellD x i))) := by
  simp only [concat_column_data, hipdb] at hok
  by_cases h1 : ((group_keys df ipdb).isEmpty || col_names.isEmpty) = true
  · rw [if_pos h1] at hok
    exact absurd hok (by simp)
  · rw [if_neg h1] at hok
    by_cases h2 : (!(col_names.all fun c' => (idxCol df.cols (Cell.str c')).isSome)) = true
    · rw [if_pos h2] at hok
      exact absurd hok (by simp)
    · rw [if_neg h2] at hok
      have hpresall : ∀ c' ∈ col_names, (idxCol df.cols (Cell.str c')).isSome = true := by
        intro c' hc'
        have hall : (col_names.all fun c' => (idxCol df.cols (Cell.str c')).isSome) = true := by
          cases hb : (col_names.all fun c' => (idxCol df.cols (Cell.str c')).isSome) with
          | true => rfl
          | false => rw [hb] at h2; simp at h2
        exact List.all_eq_true.mp hall c' hc'
      injection hok with hcdf
      rw [← hcdf] at hr
      obtain ⟨blk, hblk, hrblk⟩ := List.mem_flatten.mp hr
      obtain ⟨k, hkmem, rfl⟩ := List.mem_map.mp hblk
      obtain ⟨blk2, hblk2, hrblk2⟩ := List.mem_flatten.mp hrblk
      have hblk2eq : blk2 = mergeGroup df.cols col_names (group_rows df ipdb k) :=
        (List.eq_of_mem_replicate hblk2)
      rw [hblk2eq] at hrblk2
      have hwfg : ∀ x ∈ group_rows df ipdb k, x.length = df.cols.length := by
        intro x hx
        exact hwf x (List.mem_filter.mp hx).1
      obtain ⟨r0, hr0mem, hrlen, hmerged, huntouched⟩ :=
        mergeGroup_mem df.cols col_names (group_rows df ipdb k) hwfg hndc hndn hpresall
          r hrblk2
      have hpdbuntouched : ∀ c' ∈ col_names, idxCol df.cols (Cell.str c') ≠ some ipdb := by
        intro c' hc' hceq
        have h1' := idxCol_getD df.cols (Cell.str c') Cell.null ipdb hceq
        have h2' := idxCol_getD df.cols (Cell.str pdbDisplayCol) Cell.null ipdb hipdb
        rw [h1'] at h2'
        injection h2' with h2'
        exact hpdbn (h2' ▸ hc')
      have hr0key : getCellD r0 ipdb = k :=
        of_decide_eq_true (List.mem_filter.mp hr0mem).2
      have hkey : getCellD r ipdb = k := by
        rw [huntouched ipdb hpdbuntouched, hr0key]
      rw [hkey, hmerged c hc i hi, mergedValue_eq_spec]

/-- Example Full Table for the Aggregator: one identifier group with
source values A, blank, B, A and ligand names X, Y, X, X. -/
def dfAggEx : DFrame :=
  { cols := [Cell.str "PDB ID", Cell.str "Source", Cell.str "Ligand Name(s)", Cell.str "chainId"],
    rows := [[Cell.str "1ABC", Cell.str "A", Cell.str "X", Cell.str "c1"],
             [Cell.str "1ABC", Cell.str "", Cell.str "Y", Cell.str "c2"],
             [Cell.str "1ABC", Cell.str "B", Cell.str "X", Cell.str "c3"],
             [Cell.str "1ABC", Cell.str "A", Cell.str "X", Cell.str "c4"]] }

/-- Output of the Aggregator on `dfAggEx` (each group appears once per
mergeable column, fully merged). -/
def cdfAggEx : DFrame :=
  { cols := [Cell.str "PDB ID", Cell.str "Source", Cell.str "Ligand Name(s)", Cell.str "chainId"],
    rows := [[Cell.str "1ABC", Cell.str "A B", Cell.str "X | Y", Cell.str "c1"],
             [Cell.str "1ABC", Cell.str "A B", Cell.str "X | Y", Cell.str "c2"],
             [Cell.str "1ABC", Cell.str "A B", Cell.str "X | Y", Cell.str "c3"],
             [Cell.str "1ABC", Cell.str "A B", Cell.str "X | Y", Cell.str "c4"],
             [Cell.str "1ABC", Cell.str "A B", Cell.str "X | Y", Cell.str "c1"],
             [Cell.str "1ABC", Cell.str "A B", Cell.str "X | Y", Cell.str "c2"],
             [Cell.str "1ABC", Cell.str "A B", Cell.str "X | Y", Cell.str "c3"],
             [Cell.str "1ABC", Cell.str "A B", Cell.str "X | Y", Cell.str "c4"]] }

/-- Claim C1 (witness): values A, "", B, A in the Source column merge to
"A B", and ligand names X, Y, X merge to "X | Y". -/
theorem concat_merges_groups_inst :
    getCellD [Cell.str "1ABC", Cell.str "A B", Cell.str "X | Y", Cell.str "c1"] 1 =
      Cell.str "A B"
    ∧ getCellD [Cell.str "1ABC", Cell.str "A B", Cell.str "X | Y", Cell.str "c1"] 2 =
      Cell.str "X | Y" := by
  constructor
  · exact (concat_merges_groups dfAggEx ["Source", "Ligand Name(s)"] cdfAggEx 0
      (by decide) (by decide) (by decide) (by decide) (by decide) (by decide)
      "Source" (by decide) 1 (by decide)
      [Cell.str "1ABC", Cell.str "A B", Cell.str "X | Y", Cell.str "c1"] (by decide)).trans
      (by decide)
  · exact (concat_merges_groups dfAggEx ["Source", "Ligand Name(s)"] cdfAggEx 0
      (by decide) (by decide) (by decide) (by decide) (by decide) (by decide)
      "Ligand Name(s)" (by decide) 2 (by decide)
      [Cell.str "1ABC", Cell.str "A B", Cell.str "X | Y", Cell.str "c1"] (by decide)).trans
      (by decide)

/-! ### Lemmas about the Condenser -/

theorem getCellD_eq_getElem (r : List Cell) (n : Nat) (h : n < r.length) :
    getCellD r n = r[n] := by
  unfold getCellD
  rw [List.getD_eq_getElem?_getD, List.getElem?_eq_getElem h]
  rfl

theorem getByLabel_cons_self (c0 : Cell) (cs : List Cell) (x : Cell) (xs : List Cell) :
    getByLabel (c0 :: cs) (x :: xs) c0 = x := by
  simp [getByLabel, idxCol, getCellD]

theorem getByLabel_cons_ne (c0 : Cell) (cs : List Cell) (x : Cell) (xs : List Cell)
    (lab : Cell) (h : c0 ≠ lab) :
    getByLabel (c0 :: cs) (x :: xs) lab = getByLabel cs xs lab := by
  simp only [getByLabel, idxCol, if_neg h]
  cases hidx : idxCol cs lab with
  | none => simp
  | some j => simp [getCellD]

theorem getByLabel_dropRow :
    ∀ (cols r : List Cell), r.length = cols.length →
      ∀ lab : Cell, lab ≠ Cell.str chainIdCol →
        getByLabel (cols.filter (fun c => decide (c ≠ Cell.str chainIdCol)))
          (dropRowCells cols r) lab = getByLabel cols r lab
  | [], [], _, lab, _ => rfl
  | [], x :: xs, h, lab, _ => absurd h (by simp)
  | c0 :: cs, [], h, lab, _ => absurd h (by simp)
  | c0 :: cs, x :: xs, h, lab, hlab => by
    have hlen : xs.length = cs.length := by simpa using h
    have hdrop : dropRowCells (c0 :: cs) (x :: xs) =
        if c0 = Cell.str chainIdCol then dropRowCells cs xs else x :: dropRowCells cs xs := by
      simp only [dropRowCells, List.zip_cons_cons, List.filter_cons]
      by_cases hc : c0 = Cell.str chainIdCol
      · simp [hc]
      · simp [hc]
    by_cases hc0 : c0 = Cell.str chainIdCol
    · rw [hdrop, if_pos hc0, List.filter_cons_of_neg (by simp [hc0]),
        getByLabel_dropRow cs xs hlen lab hlab,
        getByLabel_cons_ne c0 cs x xs lab (fun he => hlab (he.symm.trans hc0))]
    · rw [hdrop, if_neg hc0, List.filter_cons_of_pos (by simp [hc0])]
      by_cases hcl : c0 = lab
      · rw [hcl, getByLabel_cons_self, getByLabel_cons_self]
      · rw [getByLabel_cons_ne c0 _ x _ lab hcl, getByLabel_cons_ne c0 cs x xs lab hcl,
          getByLabel_dropRow cs xs hlen lab hlab]

theorem groupKey_cell {r : List Cell} {ipdb : Nat} {k : Cell}
    (h : (match getCellD r ipdb with
          | Cell.null => none
          | c => some c) = some k) :
    getCellD r ipdb = k ∧ k ≠ Cell.null := by
  cases hc : getCellD r ipdb with
  | null => rw [hc] at h; simp at h
  | str s =>
    rw [hc] at h
    injection h with h
    exact ⟨h, by rw [← h]; simp⟩
  | num q =>
    rw [hc] at h
    injection h with h
    exact ⟨h, by rw [← h]; simp⟩

theorem mem_group_keys_iff (df : DFrame) (ipdb : Nat) (k : Cell) :
    k ∈ group_keys df ipdb ↔ (k ≠ Cell.null ∧ ∃ r ∈ df.rows, getCellD r ipdb = k) := by
  unfold group_keys
  rw [mem_sortBy, mem_unique, List.mem_filterMap]
  constructor
  · rintro ⟨r, hr, hfr⟩
    obtain ⟨h1, h2⟩ := groupKey_cell hfr
    exact ⟨h2, r, hr, h1⟩
  · rintro ⟨hnn, r, hr, hcell⟩
    refine ⟨r, hr, ?_⟩
    rw [hcell]
    cases k with
    | null => exact absurd rfl hnn
    | str s => rfl
    | num q => rfl

theorem unique_flatten_blocks {α β : Type} [DecidableEq α] :
    ∀ (keys : List β) (B : β → List α) (v : β → α),
      (∀ k ∈ keys, B k ≠ [] ∧ ∀ y ∈ B k, y = v k) →
      keys.Nodup →
      (∀ k ∈ keys, ∀ k' ∈ keys, v k = v k' → k = k') →
      unique ((keys.map B).flatten) = keys.map v
  | [], _, _, _, _, _ => rfl
  | k :: ks, B, v, hB, hnd, hinj => by
    obtain ⟨hne, hval⟩ := hB k (List.mem_cons_self k ks)
    obtain ⟨y0, t0, hBk⟩ : ∃ y0 t0, B k = y0 :: t0 := by
      cases hBke : B k with
      | nil => exact absurd hBke hne
      | cons a b => exact ⟨a, b, rfl⟩
    have hy0 : y0 = v k := hval y0 (by rw [hBk]; exact List.mem_cons_self y0 t0)
    show unique (B k ++ (ks.map B).flatten) = v k :: ks.map v
    rw [hBk, hy0, List.cons_append, unique_cons]
    congr 1
    rw [List.filter_append]
    have ht0 : t0.filter (fun x => decide (x ≠ v k)) = [] := by
      rw [List.filter_eq_nil_iff]
      intro y hy
      have hyv : y = v k := hval y (by rw [hBk]; exact List.mem_cons_of_mem y0 hy)
      simp [hyv]
    have hflat : ((ks.map B).flatten).filter (fun x => decide (x ≠ v k)) =
        (ks.map B).flatten := by
      rw [List.filter_eq_self]
      intro y hy
      obtain ⟨bl, hbl, hybl⟩ := List.mem_flatten.mp hy
      obtain ⟨k', hk', rfl⟩ := List.mem_map.mp hbl
      have hyv : y = v k' := (hB k' (List.mem_cons_of_mem k hk')).2 y hybl
      have hkk' : v k' ≠ v k := by
        intro he
        have hkeq := hinj k' (List.mem_cons_of_mem k hk') k (List.mem_cons_self k ks) he
        exact (List.nodup_cons.mp hnd).1 (hkeq ▸ hk')
      simp [hyv, hkk']
    rw [ht0, hflat, List.nil_append]
    exact unique_flatten_blocks ks B v (fun k' h => hB k' (List.mem_cons_of_mem k h))
      (List.nodup_cons.mp hnd).2
      (fun a ha b hb => hinj a (List.mem_cons_of_mem k ha) b (List.mem_cons_of_mem k hb))

theorem countP_eq_ite_of_nodup {α : Type} [DecidableEq α] :
    ∀ (l : List α), l.Nodup → ∀ x : α,
      l.countP (fun y => decide (y = x)) = if x ∈ l then 1 else 0
  | [], _, x => by simp
  | a :: t, hnd, x => by
    rw [List.countP_cons, countP_eq_ite_of_nodup t (List.nodup_cons.mp hnd).2 x]
    by_cases hax : a = x
    · subst hax
      rw [if_neg (List.nodup_cons.mp hnd).1, if_pos (List.mem_cons_self a t)]
      simp
    · have hxm : (x ∈ a :: t) ↔ (x ∈ t) := by
        rw [List.mem_cons]
        exact or_iff_right (fun he => hax he.symm)
      rw [show (if x ∈ a :: t then (1 : Nat) else 0) = (if x ∈ t then 1 else 0) from
        if_congr hxm rfl rfl]
      simp [hax]

theorem merged_rows_equal (df : DFrame) (col_names : List String)
    (ipdb : Nat)
    (hwf : ∀ r ∈ df.rows, r.length = df.cols.length)
    (hndc : df.cols.Nodup) (hndn : col_names.Nodup)
    (hpresall : ∀ c' ∈ col_names, (idxCol df.cols (Cell.str c')).isSome = true)
    (hconst : ∀ i, i < df.cols.length →
      (∀ c ∈ col_names, df.cols.getD i Cell.null ≠ Cell.str c) →
      ∀ r1 ∈ df.rows, ∀ r2 ∈ df.rows,
        getCellD r1 ipdb = getCellD r2 ipdb → getCellD r1 i = getCellD r2 i)
    (k : Cell) :
    ∀ r1 ∈ mergeGroup df.cols col_names (group_rows df ipdb k),
    ∀ r2 ∈ mergeGroup df.cols col_names (group_rows df ipdb k), r1 = r2 := by
  intro r1 hr1 r2 hr2
  have hwfg : ∀ x ∈ group_rows df ipdb k, x.length = df.cols.length :=
    fun x hx => hwf x (List.mem_filter.mp hx).1
  obtain ⟨r01, h01mem, hlen1, hm1, hu1⟩ :=
    mergeGroup_mem df.cols col_names _ hwfg hndc hndn hpresall r1 hr1
  obtain ⟨r02, h02mem, hlen2, hm2, hu2⟩ :=
    mergeGroup_mem df.cols col_names _ hwfg hndc hndn hpresall r2 hr2
  apply List.ext_getElem (by rw [hlen1, hlen2])
  intro n h1 h2
  rw [← getCellD_eq_getElem r1 n h1, ← getCellD_eq_getElem r2 n h2]
  have hn : n < df.cols.length := by rw [← hlen1]; exact h1
  by_cases hcase : ∃ c ∈ col_names, idxCol df.cols (Cell.str c) = some n
  · obtain ⟨c, hcm, hcidx⟩ := hcase
    rw [hm1 c hcm n hcidx, hm2 c hcm n hcidx]
  · push_neg at hcase
    rw [hu1 n hcase, hu2 n hcase]
    have hlab : ∀ c ∈ col_names, df.cols.getD n Cell.null ≠ Cell.str c := by
      intro c hcm he
      exact hcase c hcm (idxCol_of_nodup df.cols (Cell.str c) Cell.null hndc n hn he)
    have hk1 : getCellD r01 ipdb = k := of_decide_eq_true (List.mem_filter.mp h01mem).2
    have hk2 : getCellD r02 ipdb = k := of_decide_eq_true (List.mem_filter.mp h02mem).2
    exact hconst n hn hlab r01 (List.mem_filter.mp h01mem).1 r02
      (List.mem_filter.mp h02mem).1 (hk1.trans hk2.symm)

theorem concat_ok_inv (df : DFrame) (col_names : List String) (cdf : DFrame)
    (ipdb : Nat) (hipdb : idxCol df.cols (Cell.str pdbDisplayCol) = some ipdb)
    (hok : concat_column_data col_names df = Except.ok cdf) :
    cdf = { cols := df.cols,
            rows := ((group_keys df ipdb).map (fun k =>
              (List.replicate col_names.length
                (mergeGroup df.cols col_names (group_rows df ipdb k))).flatten)).flatten }
    ∧ col_names ≠ []
    ∧ ∀ c' ∈ col_names, (idxCol df.cols (Cell.str c')).isSome = true := by
  simp only [concat_column_data, hipdb] at hok
  by_cases h1 : ((group_keys df ipdb).isEmpty || col_names.isEmpty) = true
  · rw [if_pos h1] at hok
    exact absurd hok (by simp)
  · rw [if_neg h1] at hok
    by_cases h2 : (!(col_names.all fun c' => (idxCol df.cols (Cell.str c')).isSome)) = true
    · rw [if_pos h2] at hok
      exact absurd hok (by simp)
    · rw [if_neg h2] at hok
      injection hok with hcdf
      refine ⟨hcdf.symm, ?_, ?_⟩
      · intro hnil
        rw [hnil] at h1
        exact h1 (by simp)
      · intro c' hc'
        have hall : (col_names.all fun c' => (idxCol df.cols (Cell.str c')).isSome) = true := by
          cases hb : (col_names.all fun c' => (idxCol df.cols (Cell.str c')).isSome) with
          | true => rfl
          | false => rw [hb] at h2; simp at h2
        exact List.all_eq_true.mp hall c' hc'

/-- Claim C2: under the precondition that every non-mergeable column is
constant within each identifier group, the Condensed Table has exactly one
row whose identifier cell equals each identifier present in the Full
Table, no rows for identifiers not present, and exactly as many rows as
there are group keys. -/
theorem condensed_one_row_per_id (df : DFrame) (col_names : List String) (cdf : DFrame)
    (ipdb : Nat) (hipdb : idxCol df.cols (Cell.str pdbDisplayCol) = some ipdb)
    (hwf : ∀ r ∈ df.rows, r.length = df.cols.length)
    (hndc : df.cols.Nodup) (hndn : col_names.Nodup)
    (hpdbn : pdbDisplayCol ∉ col_names)
    (hconst : ∀ i, i < df.cols.length →
      (∀ c ∈ col_names, df.cols.getD i Cell.null ≠ Cell.str c) →
      ∀ r1 ∈ df.rows, ∀ r2 ∈ df.rows,
        getCellD r1 ipdb = getCellD r2 ipdb → getCellD r1 i = getCellD r2 i)
    (hok : get_condensed_df col_names df = Except.ok cdf) :
    (∀ id : String,
      cdf.rows.countP (fun r =>
        decide (getByLabel cdf.cols r (Cell.str pdbDisplayCol) = Cell.str id)) =
        if df.rows.any (fun r => decide (getCellD r ipdb = Cell.str id)) then 1 else 0)
    ∧ cdf.rows.length = (group_keys df ipdb).length := by
  simp only [get_condensed_df] at hok
  cases hcc : concat_column_data col_names df with
  | error e =>
    rw [hcc] at hok
    exact absurd hok (by simp)
  | ok cdf0 =>
    obtain ⟨hcdf0, hcnne, hpresall⟩ := concat_ok_inv df col_names cdf0 ipdb hipdb hcc
    simp only [hcc] at hok
    by_cases hchain : Cell.str chainIdCol ∈ cdf0.cols
    · rw [if_pos hchain] at hok
      injection hok with hcdf
      subst hcdf0
      have hcols' : cdf.cols = df.cols.filter (fun c => decide (c ≠ Cell.str chainIdCol)) := by
        rw [← hcdf]
      have hpdbuntouched : ∀ c' ∈ col_names, idxCol df.cols (Cell.str c') ≠ some ipdb := by
        intro c' hc' hceq
        have h1' := idxCol_getD df.cols (Cell.str c') Cell.null ipdb hceq
        have h2' := idxCol_getD df.cols (Cell.str pdbDisplayCol) Cell.null ipdb hipdb
        rw [h1'] at h2'
        injection h2' with h2'
        exact hpdbn (h2' ▸ hc')
      have hMwf : ∀ k, ∀ x ∈ group_rows df ipdb k, x.length = df.cols.length :=
        fun k x hx => hwf x (List.mem_filter.mp hx).1
      have hMne : ∀ k ∈ group_keys df ipdb,
          mergeGroup df.cols col_names (group_rows df ipdb k) ≠ [] := by
        intro k hk he
        obtain ⟨_, r, hr, hcell⟩ := (mem_group_keys_iff df ipdb k).mp hk
        have hgne : group_rows df ipdb k ≠ [] :=
          List.ne_nil_of_mem (List.mem_filter.mpr ⟨hr, decide_eq_true hcell⟩)
        have hlen := length_mergeGroup df.cols col_names (group_rows df ipdb k)
        rw [he] at hlen
        exact hgne (List.eq_nil_of_length_eq_zero hlen.symm)
      have hkeycell : ∀ k ∈ group_keys df ipdb,
          ∀ ρ ∈ mergeGroup df.cols col_names (group_rows df ipdb k),
            ρ.length = df.cols.length ∧ getCellD ρ ipdb = k := by
        intro k hk ρ hρ
        obtain ⟨r0, hr0mem, hρlen, _, hu⟩ :=
          mergeGroup_mem df.cols col_names _ (hMwf k) hndc hndn hpresall ρ hρ
        refine ⟨hρlen, ?_⟩
        rw [hu ipdb hpdbuntouched]
        exact of_decide_eq_true (List.mem_filter.mp hr0mem).2
      have hvkkey : ∀ k ∈ group_keys df ipdb,
          getByLabel (df.cols.filter (fun c => decide (c ≠ Cell.str chainIdCol)))
            (dropRowCells df.cols
              ((mergeGroup df.cols col_names (group_rows df ipdb k)).headD []))
            (Cell.str pdbDisplayCol) = k := by
        intro k hk
        have hρmem := headD_mem ([] : List Cell) (hMne k hk)
        obtain ⟨hρlen, hρkey⟩ := hkeycell k hk _ hρmem
        rw [getByLabel_dropRow df.cols _ hρlen (Cell.str pdbDisplayCol) (by decide)]
        show (match idxCol df.cols (Cell.str pdbDisplayCol) with
          | some i => getCellD ((mergeGroup df.cols col_names
              (group_rows df ipdb k)).headD []) i
          | none => Cell.null) = k
        rw [hipdb]
        exact hρkey
      have hrows' : cdf.rows = (group_keys df ipdb).map (fun k =>
          dropRowCells df.cols
            ((mergeGroup df.cols col_names (group_rows df ipdb k)).headD [])) := by
        rw [← hcdf]
        show unique ((((group_keys df ipdb).map (fun k =>
          (List.replicate col_names.length
            (mergeGroup df.cols col_names (group_rows df ipdb k))).flatten)).flatten).map
              (dropRowCells df.cols)) = _
        rw [List.map_flatten, List.map_map]
        refine unique_flatten_blocks (group_keys df ipdb) _ _ ?_ ?_ ?_
        · intro k hk
          constructor
          · intro he
            obtain ⟨m, hm⟩ := Nat.exists_eq_succ_of_ne_zero
              (fun h0 => hcnne (List.eq_nil_of_length_eq_zero h0))
            rw [Function.comp_apply, hm, List.replicate_succ, List.flatten_cons,
              List.map_append, List.append_eq_nil] at he
            exact hMne k hk (List.map_eq_nil_iff.mp he.1)
          · intro y hy
            rw [Function.comp_apply] at hy
            obtain ⟨r', hr'flat, rfl⟩ := List.mem_map.mp hy
            obtain ⟨blk, hblk, hr'blk⟩ := List.mem_flatten.mp hr'flat
            have hblkeq := List.eq_of_mem_replicate hblk
            rw [hblkeq] at hr'blk
            have heq := merged_rows_equal df col_names ipdb hwf hndc hndn hpresall hconst k
              r' hr'blk _ (headD_mem ([] : List Cell) (hMne k hk))
            rw [heq]
        · exact nodup_sortBy cellLe _ (nodup_unique _)
        · intro k hk k' hk' hvv
          have h1 := hvkkey k hk
          have h2 := hvkkey k' hk'
          rw [hvv] at h1
          rw [h2] at h1
          exact h1.symm
      constructor
      · intro id
        rw [hrows', List.countP_map, hcols']
        have hcongr : ∀ k ∈ group_keys df ipdb,
            (((fun r => decide (getByLabel
                (df.cols.filter (fun c => decide (c ≠ Cell.str chainIdCol))) r
                (Cell.str pdbDisplayCol) = Cell.str id)) ∘
              (fun k => dropRowCells df.cols
                ((mergeGroup df.cols col_names (group_rows df ipdb k)).headD []))) k = true ↔
            (fun y => decide (y = Cell.str id)) k = true) := by
          intro k hk
          rw [Function.comp_apply, decide_eq_true_eq, decide_eq_true_eq, hvkkey k hk]
        rw [List.countP_congr hcongr,
          countP_eq_ite_of_nodup (group_keys df ipdb)
            (show (group_keys df ipdb).Nodup from nodup_sortBy cellLe _ (nodup_unique _))
            (Cell.str id)]
        by_cases hm : Cell.str id ∈ group_keys df ipdb
        · rw [if_pos hm, if_pos ?_]
          obtain ⟨_, r, hr, hcell⟩ := (mem_group_keys_iff df ipdb (Cell.str id)).mp hm
          exact List.any_eq_true.mpr ⟨r, hr, decide_eq_true hcell⟩
        · rw [if_neg hm, if_neg ?_]
          intro hany
          obtain ⟨r, hr, hcell⟩ := List.any_eq_true.mp hany
          exact hm ((mem_group_keys_iff df ipdb (Cell.str id)).mpr
            ⟨by simp, r, hr, of_decide_eq_true hcell⟩)
      · rw [hrows', List.length_map]
    · rw [if_neg hchain] at hok
      exact absurd hok (by simp)

/-- Example Full Table for the Condenser: two rows for identifier 1ABC
(with the chain discriminator and constant non-mergeable columns) and one
row for 2DEF. -/
def dfCondInEx : DFrame :=
  { cols := [Cell.str "PDB ID", Cell.str "Source", Cell.str "chainId"],
    rows := [[Cell.str "1ABC", Cell.str "A", Cell.str "x"],
             [Cell.str "1ABC", Cell.str "B", Cell.str "x"],
             [Cell.str "2DEF", Cell.str "C", Cell.str "y"]] }

/-- Condensed Table of `dfCondInEx`. -/
def cdfCondEx : DFrame :=
  { cols := [Cell.str "PDB ID", Cell.str "Source"],
    rows := [[Cell.str "1ABC", Cell.str "A B"], [Cell.str "2DEF", Cell.str "C"]] }

/-- Claim C2 (witness): the condensed table of the example has exactly one
row for each of the two identifiers present, no row for an absent
identifier, and two rows in total. -/
theorem condensed_one_row_per_id_inst :
    cdfCondEx.rows.countP (fun r =>
        decide (getByLabel cdfCondEx.cols r (Cell.str pdbDisplayCol) = Cell.str "1ABC")) = 1
    ∧ cdfCondEx.rows.countP (fun r =>
        decide (getByLabel cdfCondEx.cols r (Cell.str pdbDisplayCol) = Cell.str "9XYZ")) = 0
    ∧ cdfCondEx.rows.length = 2 := by
  have h := condensed_one_row_per_id dfCondInEx ["Source"] cdfCondEx 0
    (by decide) (by decide) (by decide) (by decide) (by decide) (by decide) (by decide)
  exact ⟨(h.1 "1ABC").trans (by decide), (h.1 "9XYZ").trans (by decide),
    h.2.trans (by decide)⟩
